import Mathlib

/-!
Verification development for the GDB1k quantum-chemistry pipeline notebook
(`examples/notebooks/Exploring_Quantum_Chemistry_with_GDB1k.ipynb`).

The notebook drives a featurize / split / normalize / hyperparameter-search
pipeline.  The library components it invokes (`CoulombMatrixEig`,
`RandomSplitter`, `NormalizationTransformer`, `HyperparamOpt`) are not part of
the sources shipped with the artifact, so they are modelled here from the
design specification; the notebook's own glue code — in particular the cell-12
transformation loop, with Python's loop-variable rebinding semantics — is
embedded faithfully from the notebook source.
-/

namespace DC

variable {α : Type} {β : Type} {γ : Type}

/-- One row of a Dataset: identifier, feature vector, scalar label
(spec section 3: Record / FeatureVector). -/
structure DataPoint (α : Type) where
  id : Nat
  x : List α
  y : α
  deriving DecidableEq, Repr

/-- A Dataset is an ordered collection of rows sharing one feature length
(spec section 3). -/
abbrev Dataset (α : Type) := List (DataPoint α)

/-- The identifier list of a dataset, in row order. -/
def idsOf (ds : Dataset α) : List Nat := ds.map (·.id)

/-- Modelled from the spec: the "seedable random source" of the random
Splitter (spec section 4.2) is a linear congruential generator. -/
def lcg (s : Nat) : Nat := (1103515245 * s + 12345) % 2147483648

/-- Draw-without-replacement shuffle driven by `lcg`, with explicit fuel so
that it computes by structural recursion. -/
def shuffleAux : Nat → Nat → List α → List α
  | 0, _, _ => []
  | _ + 1, _, [] => []
  | fuel + 1, s, a :: l =>
    (a :: l).getD (s % (a :: l).length) a ::
      shuffleAux fuel (lcg s) ((a :: l).eraseIdx (s % (a :: l).length))

/-- Modelled from the spec: shuffle a list uniformly, deterministically in the
seed (spec section 4.2, "seedable random source"). -/
def shuffle (seed : Nat) (l : List α) : List α := shuffleAux l.length (lcg seed) l

/-- Moving the element at a valid index to the front is a permutation. -/
theorem getD_cons_eraseIdx_perm (l : List α) (j : Nat) (d : α) (h : j < l.length) :
    (l.getD j d :: l.eraseIdx j).Perm l := by
  induction l generalizing j with
  | nil => simp at h
  | cons a l ih =>
    cases j with
    | zero => simp
    | succ j =>
      have hj : j < l.length := by simpa using h
      have step : (l.getD j d :: a :: l.eraseIdx j).Perm (a :: l.getD j d :: l.eraseIdx j) :=
        List.Perm.swap a (l.getD j d) (l.eraseIdx j)
      simpa using step.trans ((ih j hj).cons a)

/-- The fueled shuffle permutes its input whenever the fuel covers the
length. -/
theorem shuffleAux_perm :
    ∀ (fuel s : Nat) (l : List α), l.length ≤ fuel → (shuffleAux fuel s l).Perm l := by
  intro fuel
  induction fuel with
  | zero =>
    intro s l h
    have : l = [] := List.eq_nil_of_length_eq_zero (Nat.le_zero.mp h)
    simp [this, shuffleAux]
  | succ fuel ih =>
    intro s l h
    match l with
    | [] => simp [shuffleAux]
    | a :: l' =>
      have hj : s % (a :: l').length < (a :: l').length :=
        Nat.mod_lt _ (by simp)
      have hlen : ((a :: l').eraseIdx (s % (a :: l').length)).length ≤ fuel := by
        have := List.length_eraseIdx_add_one hj
        omega
      exact ((ih (lcg s) _ hlen).cons _).trans
        (getD_cons_eraseIdx_perm (a :: l') (s % (a :: l').length) a hj)

/-- A seeded shuffle is a permutation of the dataset. -/
theorem shuffle_perm (seed : Nat) (l : List α) : (shuffle seed l).Perm l :=
  shuffleAux_perm l.length (lcg seed) l le_rfl

/-- Modelled from the spec: `RandomSplitter` (spec section 4.2) shuffles the
rows with the seeded source and slices at the `int(frac * n)` cutoffs; the
test fraction argument is accepted but, as in the library call, the slicing is
determined by the first two fractions and the test split takes the rest. -/
def randomSplit (ftrain fvalid ftest : ℚ) (seed : Nat) (ds : Dataset α) :
    Dataset α × Dataset α × Dataset α :=
  let n := ds.length
  let shuffled := shuffle seed ds
  let c1 := (⌊ftrain * (n : ℚ)⌋).toNat
  let c2 := (⌊(ftrain + fvalid) * (n : ℚ)⌋).toNat
  (shuffled.take c1, (shuffled.drop c1).take (c2 - c1), shuffled.drop c2)

/-- Modelled from the spec: the split call of notebook cell 10
(`random_splitter.train_valid_test_split(dataset)`), with the library's
default fractions 0.8 / 0.1 / 0.1. -/
def train_valid_test_split (seed : Nat) (ds : Dataset α) :
    Dataset α × Dataset α × Dataset α :=
  randomSplit (8/10) (1/10) (1/10) seed ds

/-- Slicing a list at two ordered cutoffs and concatenating recovers it. -/
theorem take_take_drop_append (s : List α) (c1 c2 : Nat) (hc : c1 ≤ c2) :
    s.take c1 ++ ((s.drop c1).take (c2 - c1) ++ s.drop c2) = s := by
  have h2 : s.drop c2 = (s.drop c1).drop (c2 - c1) := by
    rw [List.drop_drop, Nat.add_sub_cancel' hc]
  rw [h2, List.take_append_drop, List.take_append_drop]

/-- The concatenation of the three split outputs is the shuffled dataset. -/
theorem randomSplit_append (ftrain fvalid ftest : ℚ) (seed : Nat) (ds : Dataset α)
    (h1 : 0 ≤ fvalid) :
    (randomSplit ftrain fvalid ftest seed ds).1 ++
      ((randomSplit ftrain fvalid ftest seed ds).2.1 ++
        (randomSplit ftrain fvalid ftest seed ds).2.2) = shuffle seed ds := by
  have hfl : ftrain * (ds.length : ℚ) ≤ (ftrain + fvalid) * (ds.length : ℚ) :=
    mul_le_mul_of_nonneg_right (le_add_of_nonneg_right h1) (by positivity)
  have hc : (⌊ftrain * (ds.length : ℚ)⌋).toNat ≤
      (⌊(ftrain + fvalid) * (ds.length : ℚ)⌋).toNat :=
    Int.toNat_le_toNat (Int.floor_le_floor hfl)
  exact take_take_drop_append (shuffle seed ds) _ _ hc

/-- C2: for every Dataset D (with distinct identifiers, the Record invariant of
spec section 3) and valid split fractions, the three Datasets produced by the
Splitter's train/valid/test split have pairwise disjoint identifier sets whose
union equals D's identifier set. -/
theorem C2_split_partitions_ids (ds : Dataset ℚ) (ftrain fvalid ftest : ℚ) (seed : Nat)
    (hids : (idsOf ds).Nodup)
    (h0 : 0 ≤ ftrain) (h1 : 0 ≤ fvalid) (h2 : 0 ≤ ftest)
    (hsum : ftrain + fvalid + ftest = 1) :
    (idsOf (randomSplit ftrain fvalid ftest seed ds).1).Disjoint
        (idsOf (randomSplit ftrain fvalid ftest seed ds).2.1) ∧
    (idsOf (randomSplit ftrain fvalid ftest seed ds).1).Disjoint
        (idsOf (randomSplit ftrain fvalid ftest seed ds).2.2) ∧
    (idsOf (randomSplit ftrain fvalid ftest seed ds).2.1).Disjoint
        (idsOf (randomSplit ftrain fvalid ftest seed ds).2.2) ∧
    ∀ i, i ∈ idsOf ds ↔
      (i ∈ idsOf (randomSplit ftrain fvalid ftest seed ds).1 ∨
       i ∈ idsOf (randomSplit ftrain fvalid ftest seed ds).2.1 ∨
       i ∈ idsOf (randomSplit ftrain fvalid ftest seed ds).2.2) := by
  have hperm : (shuffle seed ds).Perm ds := shuffle_perm seed ds
  have happ := randomSplit_append ftrain fvalid ftest seed ds h1
  have hidsapp : idsOf (randomSplit ftrain fvalid ftest seed ds).1 ++
      (idsOf (randomSplit ftrain fvalid ftest seed ds).2.1 ++
        idsOf (randomSplit ftrain fvalid ftest seed ds).2.2) = idsOf (shuffle seed ds) := by
    rw [← happ]; simp [idsOf]
  have hpermids : (idsOf (shuffle seed ds)).Perm (idsOf ds) :=
    hperm.map (fun r : DataPoint ℚ => r.id)
  have hnd : (idsOf (shuffle seed ds)).Nodup := hpermids.nodup_iff.mpr hids
  rw [← hidsapp] at hnd
  have hnd1 := List.nodup_append.mp hnd
  have hdisj12 : (idsOf (randomSplit ftrain fvalid ftest seed ds).1).Disjoint
      (idsOf (randomSplit ftrain fvalid ftest seed ds).2.1) := by
    intro a ha hb
    exact hnd1.2.2 ha (List.mem_append_left _ hb)
  have hdisj13 : (idsOf (randomSplit ftrain fvalid ftest seed ds).1).Disjoint
      (idsOf (randomSplit ftrain fvalid ftest seed ds).2.2) := by
    intro a ha hb
    exact hnd1.2.2 ha (List.mem_append_right _ hb)
  have hdisj23 : (idsOf (randomSplit ftrain fvalid ftest seed ds).2.1).Disjoint
      (idsOf (randomSplit ftrain fvalid ftest seed ds).2.2) :=
    (List.nodup_append.mp hnd1.2.1).2.2
  refine ⟨hdisj12, hdisj13, hdisj23, fun i => ?_⟩
  constructor
  · intro hi
    have : i ∈ idsOf (shuffle seed ds) := hpermids.mem_iff.mpr hi
    rw [← hidsapp] at this
    rcases List.mem_append.mp this with h | h
    · exact Or.inl h
    · rcases List.mem_append.mp h with h' | h'
      · exact Or.inr (Or.inl h')
      · exact Or.inr (Or.inr h')
  · intro hi
    apply hpermids.mem_iff.mp
    rw [← hidsapp]
    rcases hi with h | h | h
    · exact List.mem_append_left _ h
    · exact List.mem_append_right _ (List.mem_append_left _ h)
    · exact List.mem_append_right _ (List.mem_append_right _ h)

/-- A concrete 4-record dataset with feature length 3. -/
def ds4 : Dataset ℚ :=
  [⟨0, [1, 0, 0], 1⟩, ⟨1, [0, 1, 0], 2⟩, ⟨2, [0, 0, 1], 3⟩, ⟨3, [1, 1, 0], 4⟩]

/-- Witness for C2 at a concrete dataset and fractions. -/
theorem C2_split_partitions_ids_witness :
    ((idsOf ds4).Nodup ∧ (0:ℚ) ≤ 1/2 ∧ (0:ℚ) ≤ 1/4 ∧ (1/2 + 1/4 + 1/4 : ℚ) = 1) ∧
    (idsOf (randomSplit (1/2) (1/4) (1/4) 0 ds4).1).Disjoint
      (idsOf (randomSplit (1/2) (1/4) (1/4) 0 ds4).2.1) :=
  ⟨⟨by decide, by norm_num, by norm_num, by norm_num⟩,
   (C2_split_partitions_ids ds4 (1/2) (1/4) (1/4) 0 (by decide) (by norm_num)
     (by norm_num) (by norm_num) (by norm_num)).1⟩

/-- C8: on a 4-record dataset with fractions (0.5, 0.25, 0.25) and a fixed
seed, any two runs of the Splitter produce the identical partition, and the
partition sizes are 2/1/1 (the split is a deterministic function of dataset
and seed). -/
theorem C8_split_deterministic (ds : Dataset ℚ) (seed : Nat) (h4 : ds.length = 4)
    (r1 r2 : Dataset ℚ × Dataset ℚ × Dataset ℚ)
    (hr1 : r1 = randomSplit (1/2) (1/4) (1/4) seed ds)
    (hr2 : r2 = randomSplit (1/2) (1/4) (1/4) seed ds) :
    r1 = r2 ∧ r1.1.length = 2 ∧ r1.2.1.length = 1 ∧ r1.2.2.length = 1 := by
  subst hr1; subst hr2
  have hlen : (shuffle seed ds).length = 4 := by
    rw [(shuffle_perm seed ds).length_eq, h4]
  have hc1 : (⌊(1/2 : ℚ) * ((ds.length : ℕ) : ℚ)⌋).toNat = 2 := by
    rw [h4, show (((4:ℕ) : ℚ)) = 4 from by norm_num,
      show (1/2 : ℚ) * 4 = 2 from by norm_num]
    norm_num
    rfl
  have hc2 : (⌊((1/2 : ℚ) + (1/4 : ℚ)) * ((ds.length : ℕ) : ℚ)⌋).toNat = 3 := by
    rw [h4, show (((4:ℕ) : ℚ)) = 4 from by norm_num,
      show ((1/2 : ℚ) + (1/4 : ℚ)) * 4 = 3 from by norm_num]
    norm_num
    rfl
  refine ⟨rfl, ?_, ?_, ?_⟩
  · show ((shuffle seed ds).take _).length = 2
    rw [List.length_take, hc1, hlen]; omega
  · show (((shuffle seed ds).drop _).take _).length = 1
    rw [List.length_take, List.length_drop, hc1, hc2, hlen]; omega
  · show ((shuffle seed ds).drop _).length = 1
    rw [List.length_drop, hc2, hlen]

/-- Witness for C8 at a concrete 4-record dataset and seed 0. -/
theorem C8_split_deterministic_witness :
    ds4.length = 4 ∧
    (randomSplit (1/2) (1/4) (1/4) 0 ds4 = randomSplit (1/2) (1/4) (1/4) 0 ds4 ∧
     (randomSplit (1/2) (1/4) (1/4) 0 ds4).1.length = 2 ∧
     (randomSplit (1/2) (1/4) (1/4) 0 ds4).2.1.length = 1 ∧
     (randomSplit (1/2) (1/4) (1/4) 0 ds4).2.2.length = 1) :=
  ⟨by decide, C8_split_deterministic ds4 0 (by decide) _ _ rfl rfl⟩

/-- Arithmetic mean of a list of scalars (population statistics, as the
Transformer's fit computes them; spec section 4.3). -/
def mean [DivisionRing α] (l : List α) : α := l.sum / (l.length : α)

/-- Population variance of a list of scalars. -/
def variance [DivisionRing α] (l : List α) : α :=
  ((l.map (fun v => (v - mean l) ^ 2)).sum) / (l.length : α)

/-- Feature length of a dataset (the shared length of its feature vectors,
spec section 3). -/
def featLen : Dataset α → Nat
  | [] => 0
  | r :: _ => r.x.length

/-- The j-th feature column of a dataset. -/
def colVals [DivisionRing α] (ds : Dataset α) (j : Nat) : List α :=
  ds.map (fun r => r.x.getD j 0)

/-- Modelled from the spec: `NormalizationTransformer` (spec section 4.3).
Statistics are frozen at construction; `transformX` / `transformY` select
whether features or labels are rescaled.  The scalar square root is a
parameter of `fitNormalization` because it is numeric library code; the
intended instantiation is `Real.sqrt`. -/
structure NormalizationTransformer (α : Type) where
  transformX : Bool
  transformY : Bool
  xmeans : List α
  xstds : List α
  ymean : α
  ystd : α

/-- Modelled from the spec: `fit(trainingDataset) -> Statistics`
(spec section 4.3): per-feature and label mean / standard deviation computed
from the designated training dataset, frozen afterwards. -/
def fitNormalization [DivisionRing α] (sqrtF : α → α) (tX tY : Bool)
    (ds : Dataset α) : NormalizationTransformer α :=
  { transformX := tX
    transformY := tY
    xmeans := (List.range (featLen ds)).map fun j => mean (colVals ds j)
    xstds := (List.range (featLen ds)).map fun j => sqrtF (variance (colVals ds j))
    ymean := mean (ds.map (·.y))
    ystd := sqrtF (variance (ds.map (·.y))) }

/-- Modelled from the spec: replace a value by (value − mean) / std;
a zero-variance (zero std) entry is left unscaled rather than divided by
zero — the documented fallback of spec sections 4.3 and 7. -/
def normValue [DivisionRing α] [DecidableEq α] (m s v : α) : α :=
  if s = 0 then v else (v - m) / s

/-- Modelled from the spec: `apply(dataset, Statistics) -> Dataset'`
(spec section 4.3); a fresh dataset is produced, the input is not mutated. -/
def NormalizationTransformer.transform [DivisionRing α] [DecidableEq α]
    (t : NormalizationTransformer α) (ds : Dataset α) : Dataset α :=
  ds.map fun r =>
    { r with
      x := if t.transformX then
             (r.x.zip (t.xmeans.zip t.xstds)).map (fun p => normValue p.2.1 p.2.2 p.1)
           else r.x
      y := if t.transformY then normValue t.ymean t.ystd r.y else r.y }

/-- Applying a list of transformers in order (notebook cell 12's inner loop
body). -/
def applyTransformers [DivisionRing α] [DecidableEq α]
    (ts : List (NormalizationTransformer α)) (ds : Dataset α) : Dataset α :=
  ts.foldl (fun d t => t.transform d) ds

/-- Entry-level description of the feature part of `transform`. -/
theorem transform_x_getD [DivisionRing α] [DecidableEq α]
    (t : NormalizationTransformer α) (ds : Dataset α) (d : DataPoint α) (i j : Nat)
    (hi : i < ds.length) (hj1 : j < (ds.getD i d).x.length)
    (hj2 : j < t.xmeans.length) (hj3 : j < t.xstds.length)
    (htX : t.transformX = true) :
    ((t.transform ds).getD i d).x.getD j 0 =
      normValue (t.xmeans.getD j 0) (t.xstds.getD j 0) ((ds.getD i d).x.getD j 0) := by
  have hi2 : i < (t.transform ds).length := by
    simpa [NormalizationTransformer.transform] using hi
  have hj1' : j < (ds[i]).x.length := by
    rwa [List.getD_eq_getElem _ _ hi] at hj1
  simp only [NormalizationTransformer.transform] at hi2 ⊢
  rw [List.getD_eq_getElem _ _ hi2, List.getElem_map, List.getD_eq_getElem _ _ hi]
  simp only [htX, if_true]
  have hzlen : j < (((ds[i]).x.zip (t.xmeans.zip t.xstds)).map
      (fun p => normValue p.2.1 p.2.2 p.1)).length := by
    simp only [List.length_map, List.length_zip]
    omega
  rw [List.getD_eq_getElem _ _ hzlen, List.getElem_map, List.getElem_zip, List.getElem_zip]
  rw [List.getD_eq_getElem _ _ hj2, List.getD_eq_getElem _ _ hj3,
    List.getD_eq_getElem _ _ hj1']

/-- Entry-level description of the label part of `transform`. -/
theorem transform_y_getD [DivisionRing α] [DecidableEq α]
    (t : NormalizationTransformer α) (ds : Dataset α) (d : DataPoint α) (i : Nat)
    (hi : i < ds.length) (htY : t.transformY = true) :
    ((t.transform ds).getD i d).y = normValue t.ymean t.ystd ((ds.getD i d).y) := by
  have hi2 : i < (t.transform ds).length := by
    simpa [NormalizationTransformer.transform] using hi
  simp only [NormalizationTransformer.transform] at hi2 ⊢
  rw [List.getD_eq_getElem _ _ hi2, List.getElem_map, List.getD_eq_getElem _ _ hi]
  simp only [htY, if_true]

/-- The fitted per-feature standard deviations, entry-wise. -/
theorem fitNormalization_xstds_getD [DivisionRing α] (sqrtF : α → α) (tX tY : Bool)
    (ds : Dataset α) (j : Nat) (hj : j < featLen ds) :
    (fitNormalization sqrtF tX tY ds).xstds.getD j 0 = sqrtF (variance (colVals ds j)) := by
  have hlen : j < ((List.range (featLen ds)).map
      fun j => sqrtF (variance (colVals ds j))).length := by
    simpa using hj
  show ((List.range (featLen ds)).map _).getD j 0 = _
  rw [List.getD_eq_getElem _ _ hlen, List.getElem_map, List.getElem_range]

/-- The fitted per-feature means, entry-wise. -/
theorem fitNormalization_xmeans_getD [DivisionRing α] (sqrtF : α → α) (tX tY : Bool)
    (ds : Dataset α) (j : Nat) (hj : j < featLen ds) :
    (fitNormalization sqrtF tX tY ds).xmeans.getD j 0 = mean (colVals ds j) := by
  have hlen : j < ((List.range (featLen ds)).map
      fun j => mean (colVals ds j)).length := by
    simpa using hj
  show ((List.range (featLen ds)).map _).getD j 0 = _
  rw [List.getD_eq_getElem _ _ hlen, List.getElem_map, List.getElem_range]

/-- Default datapoint used as a `getD` fallback. -/
def dp0 : DataPoint ℝ := ⟨0, [], 0⟩

/-- Concrete dataset whose single feature column is [10, 20, 30]. -/
def ds3 : Dataset ℝ := [⟨0, [10], 0⟩, ⟨1, [20], 0⟩, ⟨2, [30], 0⟩]

/-- The feature column of `ds3` has variance 200/3. -/
theorem ds3_var : variance (colVals ds3 0) = 200/3 := by
  have hcol : colVals ds3 0 = [10, 20, 30] := by simp [colVals, ds3]
  rw [hcol]
  simp [variance, mean]
  norm_num

/-- The fitted std of `ds3`'s feature column is the square root of 200/3. -/
theorem ds3_xstd_eq :
    (fitNormalization Real.sqrt true false ds3).xstds.getD 0 0 = Real.sqrt (200/3) := by
  rw [fitNormalization_xstds_getD Real.sqrt true false ds3 0 (by simp [featLen, ds3]), ds3_var]

/-- The fitted mean of `ds3`'s feature column is 20. -/
theorem ds3_xmean_eq :
    (fitNormalization Real.sqrt true false ds3).xmeans.getD 0 0 = 20 := by
  have hcol : colVals ds3 0 = [10, 20, 30] := by simp [colVals, ds3]
  rw [fitNormalization_xmeans_getD Real.sqrt true false ds3 0 (by simp [featLen, ds3]), hcol]
  simp [mean]
  norm_num

/-- The fitted std of `ds3`'s feature column is nonzero. -/
theorem ds3_xstd_ne : (fitNormalization Real.sqrt true false ds3).xstds.getD 0 0 ≠ 0 := by
  rw [ds3_xstd_eq]
  exact ne_of_gt (Real.sqrt_pos.mpr (by norm_num))

/-- Numeric bounds on the square root of 200/3. -/
theorem sqrt_200_3_bounds :
    (816/100 : ℝ) < Real.sqrt (200/3) ∧ Real.sqrt (200/3) < 817/100 :=
  ⟨(Real.lt_sqrt (by norm_num)).mpr (by norm_num),
   (Real.sqrt_lt' (by norm_num)).mpr (by norm_num)⟩

/-- C4: the Transformer's apply replaces each feature and label value v by
(v − mean) / std whenever the stored std is nonzero (the zero-variance
fallback of spec section 4.3 leaves a value unscaled), and on the concrete
feature column [10, 20, 30] the fitted transform produces approximately
[-1.22, 0, 1.22] (within 0.01). -/
theorem C4_normalization_formula :
    (∀ (t : NormalizationTransformer ℝ) (ds : Dataset ℝ) (d : DataPoint ℝ) (i j : Nat),
      i < ds.length → j < (ds.getD i d).x.length →
      j < t.xmeans.length → j < t.xstds.length →
      t.transformX = true → t.xstds.getD j 0 ≠ 0 →
      ((t.transform ds).getD i d).x.getD j 0 =
        ((ds.getD i d).x.getD j 0 - t.xmeans.getD j 0) / t.xstds.getD j 0) ∧
    (∀ (t : NormalizationTransformer ℝ) (ds : Dataset ℝ) (d : DataPoint ℝ) (i : Nat),
      i < ds.length → t.transformY = true → t.ystd ≠ 0 →
      ((t.transform ds).getD i d).y = ((ds.getD i d).y - t.ymean) / t.ystd) ∧
    (|(((fitNormalization Real.sqrt true false ds3).transform ds3).getD 0 dp0).x.getD 0 0
        - (-122/100)| ≤ 1/100 ∧
     (((fitNormalization Real.sqrt true false ds3).transform ds3).getD 1 dp0).x.getD 0 0 = 0 ∧
     |(((fitNormalization Real.sqrt true false ds3).transform ds3).getD 2 dp0).x.getD 0 0
        - 122/100| ≤ 1/100) := by
  have hX : ∀ (t : NormalizationTransformer ℝ) (ds : Dataset ℝ) (d : DataPoint ℝ) (i j : Nat),
      i < ds.length → j < (ds.getD i d).x.length →
      j < t.xmeans.length → j < t.xstds.length →
      t.transformX = true → t.xstds.getD j 0 ≠ 0 →
      ((t.transform ds).getD i d).x.getD j 0 =
        ((ds.getD i d).x.getD j 0 - t.xmeans.getD j 0) / t.xstds.getD j 0 := by
    intro t ds d i j hi hj1 hj2 hj3 htX hs
    rw [transform_x_getD t ds d i j hi hj1 hj2 hj3 htX]
    simp only [normValue]
    rw [if_neg hs]
  have hY : ∀ (t : NormalizationTransformer ℝ) (ds : Dataset ℝ) (d : DataPoint ℝ) (i : Nat),
      i < ds.length → t.transformY = true → t.ystd ≠ 0 →
      ((t.transform ds).getD i d).y = ((ds.getD i d).y - t.ymean) / t.ystd := by
    intro t ds d i hi htY hs
    rw [transform_y_getD t ds d i hi htY]
    simp only [normValue]
    rw [if_neg hs]
  have hspos : (0:ℝ) < Real.sqrt (200/3) := Real.sqrt_pos.mpr (by norm_num)
  have e1 : (10:ℝ) / Real.sqrt (200/3) < 12255/10000 := by
    calc (10:ℝ) / Real.sqrt (200/3) < 10 / (816/100) :=
          div_lt_div_of_pos_left (by norm_num) (by norm_num) sqrt_200_3_bounds.1
    _ ≤ 12255/10000 := by norm_num
  have e2 : (12239/10000 : ℝ) < 10 / Real.sqrt (200/3) := by
    calc (12239/10000 : ℝ) ≤ 10 / (817/100) := by norm_num
    _ < 10 / Real.sqrt (200/3) :=
          div_lt_div_of_pos_left (by norm_num) hspos sqrt_200_3_bounds.2
  have hmln : 0 < (fitNormalization Real.sqrt true false ds3).xmeans.length := by
    simp [fitNormalization, featLen, ds3]
  have hsln : 0 < (fitNormalization Real.sqrt true false ds3).xstds.length := by
    simp [fitNormalization, featLen, ds3]
  refine ⟨hX, hY, ?_, ?_, ?_⟩
  · rw [hX (fitNormalization Real.sqrt true false ds3) ds3 dp0 0 0 (by simp [ds3])
        (by simp [ds3]) hmln hsln rfl ds3_xstd_ne,
      ds3_xmean_eq, ds3_xstd_eq,
      show (ds3.getD 0 dp0).x.getD 0 0 = 10 from by simp [ds3]]
    have hv : (10 - 20 : ℝ) / Real.sqrt (200/3) = -(10 / Real.sqrt (200/3)) := by
      rw [show (10 - 20 : ℝ) = -10 from by norm_num, neg_div]
    rw [hv, abs_le]
    constructor <;> linarith [e1, e2]
  · rw [hX (fitNormalization Real.sqrt true false ds3) ds3 dp0 1 0 (by simp [ds3])
        (by simp [ds3]) hmln hsln rfl ds3_xstd_ne,
      ds3_xmean_eq, ds3_xstd_eq,
      show (ds3.getD 1 dp0).x.getD 0 0 = 20 from by simp [ds3]]
    simp
  · rw [hX (fitNormalization Real.sqrt true false ds3) ds3 dp0 2 0 (by simp [ds3])
        (by simp [ds3]) hmln hsln rfl ds3_xstd_ne,
      ds3_xmean_eq, ds3_xstd_eq,
      show (ds3.getD 2 dp0).x.getD 0 0 = 30 from by simp [ds3]]
    have hv : (30 - 20 : ℝ) / Real.sqrt (200/3) = 10 / Real.sqrt (200/3) := by
      rw [show (30 - 20 : ℝ) = 10 from by norm_num]
    rw [hv, abs_le]
    constructor <;> linarith [e1, e2]

/-- Witness for C4: the feature formula applied at a concrete transformer,
dataset and index. -/
theorem C4_normalization_formula_witness :
    ((fitNormalization Real.sqrt true false ds3).xstds.getD 0 0 ≠ 0) ∧
    (((fitNormalization Real.sqrt true false ds3).transform ds3).getD 0 dp0).x.getD 0 0 =
      ((ds3.getD 0 dp0).x.getD 0 0 -
          (fitNormalization Real.sqrt true false ds3).xmeans.getD 0 0) /
        (fitNormalization Real.sqrt true false ds3).xstds.getD 0 0 :=
  ⟨ds3_xstd_ne,
   C4_normalization_formula.1 (fitNormalization Real.sqrt true false ds3) ds3 dp0 0 0
     (by simp [ds3]) (by simp [ds3]) (by simp [fitNormalization, featLen, ds3])
     (by simp [fitNormalization, featLen, ds3]) rfl ds3_xstd_ne⟩

/-- Two-record dataset with labels 0 and 2 (label mean 1, label std 1). -/
def ds2 : Dataset ℝ := [⟨0, [], 0⟩, ⟨1, [], 2⟩]

/-- The fitted label std of `ds2` is 1. -/
theorem ds2_ystd : (fitNormalization Real.sqrt false true ds2).ystd = 1 := by
  show Real.sqrt (variance (ds2.map (·.y))) = 1
  have hys : ds2.map (·.y) = [0, 2] := by simp [ds2]
  have hv : variance ([0, 2] : List ℝ) = 1 := by norm_num [variance, mean]
  rw [hys, hv, Real.sqrt_one]

/-- The fitted label mean of `ds2` is 1. -/
theorem ds2_ymean : (fitNormalization Real.sqrt false true ds2).ymean = 1 := by
  show mean (ds2.map (·.y)) = 1
  have hys : ds2.map (·.y) = [0, 2] := by simp [ds2]
  rw [hys]
  norm_num [mean]

/-- C5 as stated fails on the code: applying the frozen Statistics a second
time, to the already-normalized dataset, shifts the values again instead of
reproducing the first application's output. -/
theorem C5_reapply_counterexample :
    (fitNormalization Real.sqrt false true ds2).transform
        ((fitNormalization Real.sqrt false true ds2).transform ds2) ≠
      (fitNormalization Real.sqrt false true ds2).transform ds2 := by
  have htY : (fitNormalization Real.sqrt false true ds2).transformY = true := rfl
  have htX : (fitNormalization Real.sqrt false true ds2).transformX = false := rfl
  have ht1 : (fitNormalization Real.sqrt false true ds2).transform ds2 =
      [⟨0, [], -1⟩, ⟨1, [], 1⟩] := by
    simp only [NormalizationTransformer.transform, htY, htX, ds2_ystd, ds2_ymean]
    norm_num [ds2, normValue]
  have ht2 : (fitNormalization Real.sqrt false true ds2).transform
      ([⟨0, [], -1⟩, ⟨1, [], 1⟩] : Dataset ℝ) = [⟨0, [], -2⟩, ⟨1, [], 0⟩] := by
    simp only [NormalizationTransformer.transform, htY, htX, ds2_ystd, ds2_ymean]
    norm_num [normValue]
  rw [ht1, ht2]
  intro h
  have h0 := congrArg (fun l : Dataset ℝ => (l.getD 0 dp0).y) h
  norm_num at h0

/-- C5 amended: applying frozen Statistics is deterministic and pure — any
two runs of the transform on the same dataset with the same Statistics
produce identical values (re-application to the already-normalized dataset,
by contrast, shifts the values again; see the counterexample). -/
theorem C5_transform_deterministic [DivisionRing α] [DecidableEq α]
    (t : NormalizationTransformer α) (ds r1 r2 : Dataset α)
    (h1 : r1 = t.transform ds) (h2 : r2 = t.transform ds) : r1 = r2 :=
  h1.trans h2.symm

/-- Witness for the amended C5 at a concrete transformer and dataset. -/
theorem C5_transform_deterministic_witness :
    (fitNormalization Real.sqrt false true ds2).transform ds2 =
      (fitNormalization Real.sqrt false true ds2).transform ds2 :=
  C5_transform_deterministic (fitNormalization Real.sqrt false true ds2) ds2 _ _ rfl rfl

/-- C7: a zero-variance feature column never causes a division fault: the
fitted std is `sqrt 0 = 0` and the transform's documented fallback leaves the
column's values unscaled (unchanged); the whole pipeline stays total. -/
theorem C7_zero_variance_no_fault (ds : Dataset ℝ) (j : Nat) (d : DataPoint ℝ) (i : Nat)
    (hx : ∀ r ∈ ds, r.x.length = featLen ds)
    (hj : j < featLen ds) (hvar : variance (colVals ds j) = 0) (hi : i < ds.length) :
    (((fitNormalization Real.sqrt true false ds).transform ds).getD i d).x.getD j 0 =
      (ds.getD i d).x.getD j 0 := by
  have hmem : ds.getD i d ∈ ds := by
    rw [List.getD_eq_getElem _ _ hi]
    exact List.getElem_mem hi
  have hj1 : j < (ds.getD i d).x.length := by rw [hx _ hmem]; exact hj
  have hj2 : j < (fitNormalization Real.sqrt true false ds).xmeans.length := by
    simpa [fitNormalization] using hj
  have hj3 : j < (fitNormalization Real.sqrt true false ds).xstds.length := by
    simpa [fitNormalization] using hj
  have hstd : (fitNormalization Real.sqrt true false ds).xstds.getD j 0 = 0 := by
    rw [fitNormalization_xstds_getD Real.sqrt true false ds j hj, hvar, Real.sqrt_zero]
  rw [transform_x_getD _ ds d i j hi hj1 hj2 hj3 rfl, hstd]
  simp [normValue]

/-- Two-record dataset with a constant (zero-variance) feature column. -/
def ds7 : Dataset ℝ := [⟨0, [5], 1⟩, ⟨1, [5], 2⟩]

/-- The feature column of `ds7` has zero variance. -/
theorem ds7_var : variance (colVals ds7 0) = 0 := by
  have hcol : colVals ds7 0 = [5, 5] := by simp [colVals, ds7]
  rw [hcol]
  norm_num [variance, mean]

/-- Witness for C7 at a concrete dataset with a constant feature column. -/
theorem C7_zero_variance_no_fault_witness :
    (variance (colVals ds7 0) = 0) ∧
    (((fitNormalization Real.sqrt true false ds7).transform ds7).getD 0 dp0).x.getD 0 0 =
      (ds7.getD 0 dp0).x.getD 0 0 :=
  ⟨ds7_var,
   C7_zero_variance_no_fault ds7 0 dp0 0
     (by intro r hr; simp [ds7] at hr; rcases hr with h | h <;> subst h <;> rfl)
     (by simp [featLen, ds7]) ds7_var (by simp [ds7])⟩

/-- Keep the incumbent best unless the challenger (earlier in enumeration
order) scores at least as well: ties prefer the challenger. -/
def better [LinearOrder β] (c : γ) (s : β) : Option (γ × β) → γ × β
  | none => (c, s)
  | some (b, sb) => if s ≤ sb then (c, s) else (b, sb)

/-- Modelled from the spec: select the best (minimizing) successful entry of
a score table, preferring the first configuration in enumeration order on
ties (spec section 4.4); a `none` score is a recorded training failure. -/
def selectBest [LinearOrder β] : List (γ × Option β) → Option (γ × β)
  | [] => none
  | (_, none) :: rest => selectBest rest
  | (c, some s) :: rest => some (better c s (selectBest rest))

/-- Modelled from the spec: `HyperparamOpt.hyperparam_search`
(spec section 4.4): one score-table entry per grid configuration (a `none`
score records a failed training; the search continues past failures), and
the returned best is the minimizing configuration, first in enumeration
order on ties.  `evalScore` composes the deterministic model-builder,
training on the training dataset, and scoring on the validation dataset
with the metric. -/
def hyperparam_search [LinearOrder β] (grid : List γ) (evalScore : γ → Option β) :
    Option (γ × β) × List (γ × Option β) :=
  (selectBest (grid.map fun c => (c, evalScore c)), grid.map fun c => (c, evalScore c))

/-- A table whose selection is `none` has no successful entry. -/
theorem selectBest_eq_none [LinearOrder β] :
    ∀ l : List (γ × Option β), selectBest l = none →
      ∀ c s, (c, some s) ∈ l → False := by
  intro l
  induction l with
  | nil => intro _ c s hm; simp at hm
  | cons p rest ih =>
    obtain ⟨c0, o⟩ := p
    cases o with
    | none =>
      intro h c s hm
      rcases List.mem_cons.mp hm with he | ht
      · simp at he
      · exact ih (by simpa [selectBest] using h) c s ht
    | some s0 =>
      intro h c s hm
      simp [selectBest] at h

/-- The selected entry is in the table. -/
theorem selectBest_mem [LinearOrder β] :
    ∀ (l : List (γ × Option β)) (c : γ) (s : β),
      selectBest l = some (c, s) → (c, some s) ∈ l := by
  intro l
  induction l with
  | nil => intro c s h; simp [selectBest] at h
  | cons p rest ih =>
    obtain ⟨c0, o⟩ := p
    cases o with
    | none =>
      intro c s h
      exact List.mem_cons_of_mem _ (ih c s (by simpa [selectBest] using h))
    | some s0 =>
      intro c s h
      simp only [selectBest, Option.some.injEq] at h
      cases hrest : selectBest rest with
      | none =>
        rw [hrest] at h
        simp only [better, Prod.mk.injEq] at h
        obtain ⟨h1, h2⟩ := h
        subst h1; subst h2
        exact List.mem_cons_self _ _
      | some bs =>
        obtain ⟨b, sb⟩ := bs
        rw [hrest] at h
        simp only [better] at h
        by_cases hle : s0 ≤ sb
        · rw [if_pos hle] at h
          simp only [Prod.mk.injEq] at h
          obtain ⟨h1, h2⟩ := h
          subst h1; subst h2
          exact List.mem_cons_self _ _
        · rw [if_neg hle] at h
          simp only [Prod.mk.injEq] at h
          obtain ⟨h1, h2⟩ := h
          subst h1; subst h2
          exact List.mem_cons_of_mem _ (ih _ _ hrest)

/-- The selected score is minimal among the successful entries. -/
theorem selectBest_le [LinearOrder β] :
    ∀ (l : List (γ × Option β)) (c : γ) (s : β), selectBest l = some (c, s) →
      ∀ c' s', (c', some s') ∈ l → s ≤ s' := by
  intro l
  induction l with
  | nil => intro c s h; simp [selectBest] at h
  | cons p rest ih =>
    obtain ⟨c0, o⟩ := p
    cases o with
    | none =>
      intro c s h c' s' hm
      rcases List.mem_cons.mp hm with he | ht
      · simp at he
      · exact ih c s (by simpa [selectBest] using h) c' s' ht
    | some s0 =>
      intro c s h c' s' hm
      simp only [selectBest, Option.some.injEq] at h
      cases hrest : selectBest rest with
      | none =>
        rw [hrest] at h
        simp only [better, Prod.mk.injEq] at h
        obtain ⟨h1, h2⟩ := h
        subst h1; subst h2
        rcases List.mem_cons.mp hm with he | ht
        · simp only [Prod.mk.injEq, Option.some.injEq] at he
          rw [he.2]
        · exact absurd (selectBest_eq_none rest hrest c' s' ht) (fun f => f)
      | some bs =>
        obtain ⟨b, sb⟩ := bs
        rw [hrest] at h
        simp only [better] at h
        by_cases hle : s0 ≤ sb
        · rw [if_pos hle] at h
          simp only [Prod.mk.injEq] at h
          obtain ⟨h1, h2⟩ := h
          subst h1; subst h2
          rcases List.mem_cons.mp hm with he | ht
          · simp only [Prod.mk.injEq, Option.some.injEq] at he
            rw [he.2]
          · exact le_trans hle (ih b sb hrest c' s' ht)
        · rw [if_neg hle] at h
          simp only [Prod.mk.injEq] at h
          obtain ⟨h1, h2⟩ := h
          subst h1; subst h2
          rcases List.mem_cons.mp hm with he | ht
          · simp only [Prod.mk.injEq, Option.some.injEq] at he
            rw [he.2.symm] at hle
            exact le_of_lt (lt_of_not_le hle)
          · exact ih b sb hrest c' s' ht

/-- Every successful entry strictly preceding the selected one scores
strictly worse: the first configuration tied for the best is returned. -/
theorem selectBest_first [LinearOrder β] :
    ∀ (l : List (γ × Option β)) (c : γ) (s : β), selectBest l = some (c, s) →
      ∃ pre post, l = pre ++ (c, some s) :: post ∧
        ∀ c' s', (c', some s') ∈ pre → s < s' := by
  intro l
  induction l with
  | nil => intro c s h; simp [selectBest] at h
  | cons p rest ih =>
    obtain ⟨c0, o⟩ := p
    cases o with
    | none =>
      intro c s h
      obtain ⟨pre, post, hsplit, hpre⟩ := ih c s (by simpa [selectBest] using h)
      refine ⟨(c0, none) :: pre, post, by rw [hsplit]; rfl, ?_⟩
      intro c' s' hm
      rcases List.mem_cons.mp hm with he | ht
      · simp at he
      · exact hpre c' s' ht
    | some s0 =>
      intro c s h
      simp only [selectBest, Option.some.injEq] at h
      cases hrest : selectBest rest with
      | none =>
        rw [hrest] at h
        simp only [better, Prod.mk.injEq] at h
        obtain ⟨h1, h2⟩ := h
        subst h1; subst h2
        exact ⟨[], rest, rfl, by intro c' s' hm; simp at hm⟩
      | some bs =>
        obtain ⟨b, sb⟩ := bs
        rw [hrest] at h
        simp only [better] at h
        by_cases hle : s0 ≤ sb
        · rw [if_pos hle] at h
          simp only [Prod.mk.injEq] at h
          obtain ⟨h1, h2⟩ := h
          subst h1; subst h2
          exact ⟨[], rest, rfl, by intro c' s' hm; simp at hm⟩
        · rw [if_neg hle] at h
          simp only [Prod.mk.injEq] at h
          obtain ⟨h1, h2⟩ := h
          subst h1; subst h2
          obtain ⟨pre, post, hsplit, hpre⟩ := ih b sb hrest
          refine ⟨(c0, some s0) :: pre, post, by rw [hsplit]; rfl, ?_⟩
          intro c' s' hm
          rcases List.mem_cons.mp hm with he | ht
          · simp only [Prod.mk.injEq, Option.some.injEq] at he
            rw [he.2]
            exact lt_of_not_le hle
          · exact hpre c' s' ht

/-- C3: for every configuration grid of size K with a deterministic
model-builder, hyperparam_search returns a score table with exactly K
entries (training failures recorded as `none` scores rather than dropped),
the returned best configuration's score is ≤ every successful entry's score
for the minimized metric, and among configurations tied for the best score
the first one in enumeration order is returned. -/
theorem C3_hyperparam_search_best [LinearOrder β] (grid : List γ)
    (evalScore : γ → Option β) (c : γ) (s : β)
    (hbest : (hyperparam_search grid evalScore).1 = some (c, s)) :
    (hyperparam_search grid evalScore).2.length = grid.length ∧
    (c, some s) ∈ (hyperparam_search grid evalScore).2 ∧
    (∀ c' s', (c', some s') ∈ (hyperparam_search grid evalScore).2 → s ≤ s') ∧
    ∃ pre post, (hyperparam_search grid evalScore).2 = pre ++ (c, some s) :: post ∧
      ∀ c' s', (c', some s') ∈ pre → s < s' :=
  ⟨by simp [hyperparam_search],
   selectBest_mem _ c s hbest,
   selectBest_le _ c s hbest,
   selectBest_first _ c s hbest⟩

/-- Witness for C3 on a concrete two-point grid. -/
theorem C3_hyperparam_search_best_witness :
    ((hyperparam_search [(5:Int), 7] (fun c => some c)).1 = some (5, 5)) ∧
    (hyperparam_search [(5:Int), 7] (fun c => some c)).2.length = [(5:Int), 7].length ∧
    ((5:Int), some (5:Int)) ∈ (hyperparam_search [(5:Int), 7] (fun c => some c)).2 :=
  ⟨rfl,
   (C3_hyperparam_search_best [(5:Int), 7] (fun c => some c) 5 5 rfl).1,
   (C3_hyperparam_search_best [(5:Int), 7] (fun c => some c) 5 5 rfl).2.1⟩

/-- A kernel-ridge hyperparameter configuration (the keys of notebook
cell 16's params_dict: kernel, alpha, gamma). -/
structure KRRConfig where
  kernel : String
  alpha : ℚ
  gamma : ℚ
  deriving DecidableEq, Repr

/-- Candidate kernels of notebook cell 16. -/
def krr_kernels : List String := ["laplacian"]

/-- Candidate alphas of notebook cell 16. -/
def krr_alphas : List ℚ := [1/10000]

/-- Candidate gammas of notebook cell 16. -/
def krr_gammas : List ℚ := [1/10000]

/-- The cartesian-product grid over the notebook's candidate lists, in
itertools.product enumeration order. -/
def krrGrid : List KRRConfig :=
  krr_kernels.flatMap fun k => krr_alphas.flatMap fun a => krr_gammas.map fun g => ⟨k, a, g⟩

/-- C9: the kernel-ridge grid is the singleton configuration
{kernel: "laplacian", alpha: 0.0001, gamma: 0.0001}; provided training that
configuration succeeds, hyperparam_search returns exactly it as the best
configuration together with a one-entry score table. -/
theorem C9_krr_singleton (evalScore : KRRConfig → Option ℚ) (s : ℚ)
    (h : evalScore ⟨"laplacian", 1/10000, 1/10000⟩ = some s) :
    hyperparam_search krrGrid evalScore =
      (some (⟨"laplacian", 1/10000, 1/10000⟩, s),
       [(⟨"laplacian", 1/10000, 1/10000⟩, some s)]) := by
  have he : hyperparam_search krrGrid evalScore =
      (selectBest [(⟨"laplacian", 1/10000, 1/10000⟩,
          evalScore ⟨"laplacian", 1/10000, 1/10000⟩)],
       [(⟨"laplacian", 1/10000, 1/10000⟩,
          evalScore ⟨"laplacian", 1/10000, 1/10000⟩)]) := rfl
  rw [he, h]
  rfl

/-- Witness for C9 with a concrete score function. -/
theorem C9_krr_singleton_witness :
    ((fun _ : KRRConfig => some (3:ℚ)) ⟨"laplacian", 1/10000, 1/10000⟩ = some 3) ∧
    hyperparam_search krrGrid (fun _ => some (3:ℚ)) =
      (some (⟨"laplacian", 1/10000, 1/10000⟩, 3),
       [(⟨"laplacian", 1/10000, 1/10000⟩, some 3)]) :=
  ⟨rfl, C9_krr_singleton (fun _ => some 3) 3 rfl⟩

/-- An atom of a molecular record: its atomic number (z = 1 is hydrogen). -/
structure MolAtom where
  z : Nat
  deriving DecidableEq, Repr

/-- A molecular record: identifier and atom list (spec section 3: Record). -/
structure Molecule where
  name : String
  atoms : List MolAtom
  deriving DecidableEq, Repr

/-- A featurization failure names the offending record (spec section 7). -/
structure FeaturizationError where
  recordName : String
  deriving DecidableEq, Repr

/-- The atoms retained under the hydrogen-removal flag. -/
def retainedAtoms (removeH : Bool) (m : Molecule) : List MolAtom :=
  if removeH then m.atoms.filter (fun a => decide (a.z ≠ 1)) else m.atoms

/-- Heavy-atom (non-hydrogen) count of a molecule. -/
def heavyAtomCount (m : Molecule) : Nat :=
  (m.atoms.filter (fun a => decide (a.z ≠ 1))).length

/-- Modelled from the spec: `CoulombMatrixEig` (spec sections 4.1 and 7):
produce a fixed-length-N summary of the zero-padded Coulomb matrix, failing
with a FeaturizationError naming the record when the retained atom count
exceeds N.  The numeric eigenvalue computation is scalar library code not in
the sources; the per-atom entries are abstracted by the atom's nuclear
charge, zero-padded to length N, which preserves exactly the length /
padding / failure behaviour stated by the specification. -/
def coulombMatrixEig (N : Nat) (removeH : Bool) (m : Molecule) :
    Except FeaturizationError (List ℚ) :=
  let atoms := retainedAtoms removeH m
  if atoms.length ≤ N then
    .ok ((atoms.map fun a => (a.z : ℚ)) ++ List.replicate (N - atoms.length) 0)
  else .error ⟨m.name⟩

/-- The featurizer as constructed in notebook cell 6:
`CoulombMatrixEig(23, remove_hydrogens=False)`. -/
def featurizer (m : Molecule) : Except FeaturizationError (List ℚ) :=
  coulombMatrixEig 23 false m

/-- Evaluation of the featurizer on an in-range molecule. -/
theorem featurizer_ok_of_le (m : Molecule) (hle : m.atoms.length ≤ 23) :
    featurizer m = .ok ((m.atoms.map fun a => (a.z : ℚ)) ++
      List.replicate (23 - m.atoms.length) 0) := by
  simp [featurizer, coulombMatrixEig, retainedAtoms, hle]

/-- Evaluation of the featurizer on an oversized molecule. -/
theorem featurizer_error_of_gt (m : Molecule) (hgt : ¬ m.atoms.length ≤ 23) :
    featurizer m = .error ⟨m.name⟩ := by
  simp [featurizer, coulombMatrixEig, retainedAtoms, hgt]

/-- The featurizer succeeds exactly on molecules of at most 23 atoms. -/
theorem featurizer_ok_iff (m : Molecule) :
    (∃ v, featurizer m = .ok v) ↔ m.atoms.length ≤ 23 := by
  by_cases hle : m.atoms.length ≤ 23
  · exact iff_of_true ⟨_, featurizer_ok_of_le m hle⟩ hle
  · refine iff_of_false ?_ hle
    rintro ⟨v, hv⟩
    rw [featurizer_error_of_gt m hle] at hv
    exact Except.noConfusion hv

/-- Looking up any index in a replicated list of a constant returns that
constant, also as the out-of-range default. -/
theorem getD_replicate_self (c : ℚ) : ∀ (n k : Nat), (List.replicate n c).getD k c = c := by
  intro n
  induction n with
  | zero => intro k; simp
  | succ n ih =>
    intro k
    cases k with
    | zero => simp [List.replicate]
    | succ k => simpa [List.replicate] using ih k

/-- C6: the notebook featurizer (maximum atom count N = 23) produces a
FeatureVector of fixed length 23, zero-padding the entries beyond the
molecule's own atoms, if and only if the structure's atom count is at most
23; a structure with more atoms fails with a FeaturizationError identifying
the offending record instead of producing a vector. -/
theorem C6_featurizer_contract (m : Molecule) :
    (∀ v, featurizer m = .ok v →
      v.length = 23 ∧ ∀ i, m.atoms.length ≤ i → v.getD i 0 = 0) ∧
    ((∃ v, featurizer m = .ok v) ↔ m.atoms.length ≤ 23) ∧
    (23 < m.atoms.length → featurizer m = .error ⟨m.name⟩) := by
  refine ⟨?_, featurizer_ok_iff m, fun hgt => featurizer_error_of_gt m (not_le.mpr hgt)⟩
  intro v hv
  have hle : m.atoms.length ≤ 23 := (featurizer_ok_iff m).mp ⟨v, hv⟩
  rw [featurizer_ok_of_le m hle] at hv
  have hv' : v = (m.atoms.map fun a => (a.z : ℚ)) ++
      List.replicate (23 - m.atoms.length) 0 := by
    injection hv with h
    exact h.symm
  subst hv'
  constructor
  · simp only [List.length_append, List.length_map, List.length_replicate]
    omega
  · intro i hi
    by_cases h23 : i < 23
    · rw [List.getD_append_right _ _ _ _ (by simpa using hi)]
      exact getD_replicate_self 0 _ _
    · apply List.getD_eq_default
      simp only [List.length_append, List.length_map, List.length_replicate]
      omega

/-- A 24-heavy-atom molecule, beyond the featurizer's limit. -/
def mol24 : Molecule := ⟨"mol24", List.replicate 24 ⟨6⟩⟩

/-- Witness for C6: a 24-atom molecule is rejected with an error naming it. -/
theorem C6_featurizer_contract_witness :
    23 < mol24.atoms.length ∧ featurizer mol24 = .error ⟨"mol24"⟩ :=
  ⟨by decide, (C6_featurizer_contract mol24).2.2 (by decide)⟩

/-- C10: because the featurizer is constructed with remove_hydrogens=False,
hydrogen atoms count toward the 23-atom maximum: a molecule is in range
exactly when its total atom count including hydrogens is at most 23, even
when its heavy-atom count alone is at most 23. -/
theorem C10_hydrogens_count (m : Molecule) (hheavy : heavyAtomCount m ≤ 23) :
    (∃ v, featurizer m = .ok v) ↔ m.atoms.length ≤ 23 :=
  featurizer_ok_iff m

/-- Octane, C8H18: 8 heavy atoms but 26 atoms in total. -/
def octane : Molecule := ⟨"octane", List.replicate 8 ⟨6⟩ ++ List.replicate 18 ⟨1⟩⟩

/-- Witness for C10: octane's heavy-atom count is within the limit, yet it
fails to featurize because its 26 total atoms exceed 23. -/
theorem C10_hydrogens_count_witness :
    heavyAtomCount octane ≤ 23 ∧ ¬ octane.atoms.length ≤ 23 ∧
      ¬ ∃ v, featurizer octane = .ok v :=
  ⟨by decide, by decide,
   fun hv => absurd ((C10_hydrogens_count octane (by decide)).mp hv) (by decide)⟩

/-- Notebook cell 12, modelled with Python's assignment semantics: the
statement `dataset = transformer.transform(dataset)` rebinds the loop-local
name `dataset` only, while each `transform` call produces a fresh dataset
(spec sections 3 and 5); the bindings `train_dataset`, `valid_dataset`,
`test_dataset` are therefore unchanged by the loop.  The cell's state
afterwards is the triple of those unchanged bindings together with the final
value of the loop variable. -/
def cell12 [DivisionRing α] [DecidableEq α] (ts : List (NormalizationTransformer α))
    (tr va te : Dataset α) :
    (Dataset α × Dataset α × Dataset α) × Dataset α :=
  ((tr, va, te), [tr, va, te].foldl (fun _ d => applyTransformers ts d) [])

/-- The notebook pipeline of cells 10-14, from the featurized base dataset to
the data handed to `hyperparam_search`: split (cell 10), fit one
transform_X and one transform_y normalization transformer on the training
partition (cell 12's constructor calls), run the transformation loop
(cell 12), and pass `train_dataset`, `valid_dataset` to the search
(cell 14).  Returns those two datasets and the fitted transformers.  The
scalar square root is a parameter so the definition stays executable; the
intended instantiation is `Real.sqrt`. -/
def notebookPipeline [DivisionRing α] [DecidableEq α] (sqrtF : α → α) (seed : Nat)
    (base : Dataset α) :
    (Dataset α × Dataset α) × List (NormalizationTransformer α) :=
  let s := train_valid_test_split seed base
  let transformers := [fitNormalization sqrtF true false s.1,
                       fitNormalization sqrtF false true s.1]
  let after := cell12 transformers s.1 s.2.1 s.2.2
  ((after.1.1, after.1.2.1), transformers)

/-- A concrete featurized base dataset of ten records with one feature
column (identically zero) and labels chosen so that the seed-0 training
partition has label mean 0 and label std 2. -/
def ds10 : Dataset ℝ :=
  [⟨0, [0], 0⟩, ⟨1, [0], 2⟩, ⟨2, [0], -2⟩, ⟨3, [0], 0⟩, ⟨4, [0], 2⟩,
   ⟨5, [0], 2⟩, ⟨6, [0], -2⟩, ⟨7, [0], -2⟩, ⟨8, [0], -2⟩, ⟨9, [0], 2⟩]

/-- The training partition the splitter produces on `ds10` with seed 0. -/
def trainE : Dataset ℝ :=
  [⟨5, [0], 2⟩, ⟨1, [0], 2⟩, ⟨9, [0], 2⟩, ⟨4, [0], 2⟩,
   ⟨8, [0], -2⟩, ⟨6, [0], -2⟩, ⟨7, [0], -2⟩, ⟨2, [0], -2⟩]

/-- Concrete evaluation of the seed-0 split of `ds10`. -/
theorem split_ds10 : train_valid_test_split 0 ds10 =
    (trainE, [⟨3, [0], 0⟩], [⟨0, [0], 0⟩]) := by
  have hn : ((ds10.length : ℕ) : ℚ) = ((10:ℕ) : ℚ) := rfl
  show randomSplit (8/10) (1/10) (1/10) 0 ds10 = _
  simp only [randomSplit, hn]
  rw [show ((⌊(8/10 : ℚ) * ((10:ℕ) : ℚ)⌋).toNat) = 8 from by norm_num; rfl,
    show ((⌊((8/10 : ℚ) + (1/10 : ℚ)) * ((10:ℕ) : ℚ)⌋).toNat) = 9 from by norm_num; rfl]
  rfl

/-- The feature column of `trainE` has zero variance. -/
theorem trainE_xvar : variance (colVals trainE 0) = 0 := by
  have hcol : colVals trainE 0 = [0, 0, 0, 0, 0, 0, 0, 0] := by simp [colVals, trainE]
  rw [hcol]
  norm_num [variance, mean]

/-- The fitted feature means of `trainE` are [0]. -/
theorem trainE_xmeans : (fitNormalization Real.sqrt true false trainE).xmeans = [0] := by
  show ((List.range (featLen trainE)).map fun j => mean (colVals trainE j)) = [0]
  rw [show featLen trainE = 1 from rfl, show List.range 1 = [0] from rfl]
  simp only [List.map_cons, List.map_nil]
  have hcol : colVals trainE 0 = [0, 0, 0, 0, 0, 0, 0, 0] := by simp [colVals, trainE]
  rw [hcol]
  norm_num [mean]

/-- The fitted feature stds of `trainE` are [0]. -/
theorem trainE_xstds : (fitNormalization Real.sqrt true false trainE).xstds = [0] := by
  show ((List.range (featLen trainE)).map
      fun j => Real.sqrt (variance (colVals trainE j))) = [0]
  rw [show featLen trainE = 1 from rfl, show List.range 1 = [0] from rfl]
  simp only [List.map_cons, List.map_nil]
  rw [trainE_xvar, Real.sqrt_zero]

/-- The transform_X transformer fitted on `trainE` leaves `trainE`
unchanged (its only feature column is constant). -/
theorem trainE_t1_fix :
    (fitNormalization Real.sqrt true false trainE).transform trainE = trainE := by
  simp only [NormalizationTransformer.transform,
    show (fitNormalization Real.sqrt true false trainE).transformX = true from rfl,
    show (fitNormalization Real.sqrt true false trainE).transformY = false from rfl,
    trainE_xmeans, trainE_xstds]
  simp [trainE, normValue]

/-- The fitted label mean of `trainE` is 0. -/
theorem trainE_ymean : (fitNormalization Real.sqrt false true trainE).ymean = 0 := by
  show mean (trainE.map (·.y)) = 0
  have hys : trainE.map (·.y) = [2, 2, 2, 2, -2, -2, -2, -2] := by simp [trainE]
  rw [hys]
  norm_num [mean]

/-- The fitted label std of `trainE` is 2. -/
theorem trainE_ystd : (fitNormalization Real.sqrt false true trainE).ystd = 2 := by
  show Real.sqrt (variance (trainE.map (·.y))) = 2
  have hys : trainE.map (·.y) = [2, 2, 2, 2, -2, -2, -2, -2] := by simp [trainE]
  rw [hys,
    show variance ([2, 2, 2, 2, -2, -2, -2, -2] : List ℝ) = 4 from by
      norm_num [variance, mean],
    show (4:ℝ) = 2^2 from by norm_num, Real.sqrt_sq (by norm_num)]

/-- C1 (behaviour of the code at a concrete input): the claim — and the
spec — require HyperparamSearch to consume the train and validation
partitions transformed with statistics fit on the training partition.  The
notebook's cell-12 loop, however, rebinds only the loop-local name
`dataset`, so cell 14 hands `hyperparam_search` the *untransformed* splitter
outputs: on `ds10`, the consumed training dataset equals the raw training
partition and differs from the transformed training partition. -/
theorem C1_hyperparam_consumes_untransformed :
    (notebookPipeline Real.sqrt 0 ds10).1.1 = (train_valid_test_split 0 ds10).1 ∧
    (notebookPipeline Real.sqrt 0 ds10).1.1 ≠
      applyTransformers (notebookPipeline Real.sqrt 0 ds10).2
        (notebookPipeline Real.sqrt 0 ds10).1.1 := by
  have hsplit : (notebookPipeline Real.sqrt 0 ds10).1.1 = trainE := by
    show (train_valid_test_split 0 ds10).1 = trainE
    rw [split_ds10]
  have hts : (notebookPipeline Real.sqrt 0 ds10).2 =
      [fitNormalization Real.sqrt true false trainE,
       fitNormalization Real.sqrt false true trainE] := by
    show [fitNormalization Real.sqrt true false (train_valid_test_split 0 ds10).1,
          fitNormalization Real.sqrt false true (train_valid_test_split 0 ds10).1] = _
    rw [split_ds10]
  refine ⟨rfl, ?_⟩
  intro h
  rw [hsplit, hts] at h
  have happ : applyTransformers
      [fitNormalization Real.sqrt true false trainE,
       fitNormalization Real.sqrt false true trainE] trainE =
      (fitNormalization Real.sqrt false true trainE).transform
        ((fitNormalization Real.sqrt true false trainE).transform trainE) := rfl
  rw [happ, trainE_t1_fix] at h
  have hy := congrArg (fun l : Dataset ℝ => (l.getD 0 dp0).y) h
  simp only [] at hy
  rw [transform_y_getD (fitNormalization Real.sqrt false true trainE) trainE dp0 0
      (by simp [trainE]) rfl, trainE_ymean, trainE_ystd,
    show (trainE.getD 0 dp0).y = 2 from rfl] at hy
  norm_num [normValue] at hy

end DC
